import Mathlib

set_option maxHeartbeats 1000000

/-!
Shallow embedding of the flag parser of `toiletcli` (`src/flags.rs`).

Rust mutable references inside `FlagType` are modelled by storing the current
value of the destination slot in the variant itself; the parser then returns
the updated declaration table.  The argument iterator is modelled as a
`List String` that the parser consumes from the front and returns.
-/

namespace Toiletcli

/-- The four declaration kinds of `FlagType` in `src/flags.rs`, carrying the
current value of the borrowed destination slot. -/
inductive FlagType where
  | BoolFlag (b : Bool)
  | StringFlag (s : String)
  | ManyFlag (v : List String)
  | RepeatFlag (n : Nat)
  deriving DecidableEq

/-- `Flag` from `src/flags.rs`: a destination paired with its alias strings. -/
abbrev Flag := FlagType × List String

/-- `FlagErrorType` from `src/flags.rs`. -/
inductive FlagErrorType where
  | CannotCombine
  | NoValueProvided
  | ExtraValueProvided
  | Unknown
  deriving DecidableEq

/-- `FlagError` from `src/flags.rs`: the error kind and the offending flag. -/
structure FlagError where
  error_type : FlagErrorType
  flag : String
  deriving DecidableEq

/-- The mutable locals of one `parse_arg` call that are threaded through the
character/declaration loops: the remaining argument stream, `found_long`,
`found_short` and `last_short_flag_with_value`. -/
structure ScanState where
  args : List String
  foundLong : Bool
  foundShort : Bool
  lastShort : Option Char
  deriving DecidableEq

/-- Rust `str::ends_with(char)`: the last character equals `c`. -/
def endsWithChar (s : String) (c : Char) : Bool :=
  match s.data.getLast? with
  | some d => d == c
  | none => false

/-- The match condition of the inner search loop of `parse_arg`
(`src/flags.rs` lines 224-229): a long flag compares the whole flag part with
the alias, a short flag matches an alias of byte length 2 ending in `ch`. -/
def nameMatches (isLong : Bool) (argFlag : String) (ch : Char) (name : String) : Bool :=
  (isLong && (argFlag == name)) ||
  (!isLong && (name.utf8ByteSize == 2) && endsWithChar name ch)

/-- Rust `arg.find('=')` followed by `split_at` and the removal of the `'='`
(`src/flags.rs` lines 186-192): the characters before the first `'='` and,
when a `'='` occurs, the characters after it. -/
def splitEq : List Char → List Char × Option (List Char)
  | [] => ([], none)
  | c :: rest =>
    if c = '=' then ([], some rest)
    else
      let p := splitEq rest
      (c :: p.1, p.2)

/-- The loop over one declaration's alias strings (`src/flags.rs` lines
218-297).  On a match the state of `last_short_flag_with_value` is consulted
first (`CannotCombine`), then the kind is dispatched; a `BoolFlag` match
breaks out of this loop, the other kinds continue scanning the remaining
aliases of the same declaration. -/
def procNames (isLong : Bool) (argFlag : String) (argVal : Option String) (ch : Char) :
    FlagType → ScanState → List String → Except FlagError (FlagType × ScanState)
  | kind, st, [] => .ok (kind, st)
  | kind, st, name :: rest =>
    if nameMatches isLong argFlag ch name then
      match st.lastShort with
      | some first => .error ⟨FlagErrorType.CannotCombine, "-".push first⟩
      | none =>
        match kind with
        | .BoolFlag _ =>
          if argVal.isSome then
            .error ⟨FlagErrorType.ExtraValueProvided,
                    if !isLong then "-".push ch else argFlag⟩
          else
            .ok (.BoolFlag true,
                 { st with foundLong := st.foundLong || isLong,
                           foundShort := st.foundShort || !isLong })
        | .StringFlag _ =>
          match argVal with
          | some v =>
            procNames isLong argFlag argVal ch (.StringFlag v)
              { st with foundLong := st.foundLong || isLong,
                        foundShort := st.foundShort || !isLong,
                        lastShort := if !isLong then some ch else st.lastShort } rest
          | none =>
            match st.args with
            | next :: args2 =>
              procNames isLong argFlag argVal ch (.StringFlag next)
                { st with args := args2,
                          foundLong := st.foundLong || isLong,
                          foundShort := st.foundShort || !isLong,
                          lastShort := if !isLong then some ch else st.lastShort } rest
            | [] => .error ⟨FlagErrorType.NoValueProvided, argFlag⟩
        | .RepeatFlag n =>
          procNames isLong argFlag argVal ch (.RepeatFlag (n + 1))
            { st with foundLong := st.foundLong || isLong,
                      foundShort := st.foundShort || !isLong } rest
        | .ManyFlag v =>
          match argVal with
          | some x =>
            procNames isLong argFlag argVal ch (.ManyFlag (v ++ [x]))
              { st with foundLong := st.foundLong || isLong,
                        foundShort := st.foundShort || !isLong,
                        lastShort := if !isLong then some ch else st.lastShort } rest
          | none =>
            match st.args with
            | next :: args2 =>
              procNames isLong argFlag argVal ch (.ManyFlag (v ++ [next]))
                { st with args := args2,
                          foundLong := st.foundLong || isLong,
                          foundShort := st.foundShort || !isLong,
                          lastShort := if !isLong then some ch else st.lastShort } rest
            | [] => .error ⟨FlagErrorType.NoValueProvided, argFlag⟩
    else
      procNames isLong argFlag argVal ch kind st rest

/-- The linear search over the whole declaration table for one character of
the argument (`src/flags.rs` lines 217-298), returning the updated table. -/
def procFlags (isLong : Bool) (argFlag : String) (argVal : Option String) (ch : Char) :
    ScanState → List Flag → Except FlagError (List Flag × ScanState)
  | st, [] => .ok ([], st)
  | st, (kind, names) :: rest =>
    match procNames isLong argFlag argVal ch kind st names with
    | .error e => .error e
    | .ok (kind2, st2) =>
      match procFlags isLong argFlag argVal ch st2 rest with
      | .error e => .error e
      | .ok (rest2, st3) => .ok ((kind2, names) :: rest2, st3)

/-- The loop over the characters of the argument (`src/flags.rs` lines
213-314): a found long flag breaks out, an unmatched long flag or an
unmatched cluster character is an `Unknown` error. -/
def procChars (isLong : Bool) (argFlag : String) (argVal : Option String) :
    List Flag → List String → Option Char → List Char →
    Except FlagError (List Flag × List String)
  | flags, args, _, [] => .ok (flags, args)
  | flags, args, lastShort, ch :: rest =>
    match procFlags isLong argFlag argVal ch ⟨args, false, false, lastShort⟩ flags with
    | .error e => .error e
    | .ok (flags2, st) =>
      if st.foundLong then .ok (flags2, st.args)
      else if isLong then .error ⟨FlagErrorType.Unknown, argFlag⟩
      else if !st.foundShort then .error ⟨FlagErrorType.Unknown, "-".push ch⟩
      else procChars isLong argFlag argVal flags2 st.args st.lastShort rest

/-- `parse_arg` from `src/flags.rs` (lines 178-317).  Returns `Ok false` when
the token is not a flag, `Ok true` when it was consumed as a flag, together
with the remaining stream and the updated declaration table. -/
def parse_arg (arg : String) (args : List String) (flags : List Flag) :
    Except FlagError (Bool × List String × List Flag) :=
  let p := splitEq arg.data
  let argFlag := String.mk p.1
  let argVal : Option String := p.2.map String.mk
  match p.1 with
  | [] => .ok (false, args, flags)
  | c :: cs =>
    if c = '-' then
      let lp := if cs.head? = some '-' then (true, cs.tail) else (false, cs)
      match procChars lp.1 argFlag argVal flags args none lp.2 with
      | .error e => .error e
      | .ok (flags2, args2) => .ok (true, args2, flags2)
    else .ok (false, args, flags)

/-- `procNames` never lengthens the remaining stream. -/
theorem procNames_args_le (isLong : Bool) (argFlag : String) (ch : Char) :
    ∀ (argVal : Option String) (kind : FlagType) (st : ScanState) (names : List String)
      (kind2 : FlagType) (st2 : ScanState),
      procNames isLong argFlag argVal ch kind st names = .ok (kind2, st2) →
      st2.args.length ≤ st.args.length := by
  intro argVal kind st names
  induction names generalizing argVal kind st with
  | nil =>
    intro kind2 st2 h
    simp only [procNames] at h
    cases h
    exact Nat.le_refl _
  | cons name rest ih =>
    intro kind2 st2 h
    simp only [procNames] at h
    repeat' split at h
    all_goals
      first
      | (cases h <;> exact Nat.le_refl _)
      | (simpa using ih _ _ _ _ _ h)
      | (have h2 := ih _ _ _ _ _ h
         simp_all
         omega)

/-- `procFlags` never lengthens the remaining stream. -/
theorem procFlags_args_le (isLong : Bool) (argFlag : String) (argVal : Option String)
    (ch : Char) :
    ∀ (flags : List Flag) (st : ScanState) (flags2 : List Flag) (st2 : ScanState),
      procFlags isLong argFlag argVal ch st flags = .ok (flags2, st2) →
      st2.args.length ≤ st.args.length := by
  intro flags
  induction flags with
  | nil =>
    intro st flags2 st2 h
    simp only [procFlags] at h
    cases h
    exact Nat.le_refl _
  | cons p rest ih =>
    intro st flags2 st2 h
    obtain ⟨kind, names⟩ := p
    simp only [procFlags] at h
    cases hn : procNames isLong argFlag argVal ch kind st names with
    | error e =>
      simp only [hn] at h
      exact Except.noConfusion h
    | ok v =>
      obtain ⟨kindm, stm⟩ := v
      simp only [hn] at h
      cases hr : procFlags isLong argFlag argVal ch stm rest with
      | error e =>
        simp only [hr] at h
        exact Except.noConfusion h
      | ok w =>
        obtain ⟨rest2, st3⟩ := w
        simp only [hr] at h
        cases h
        exact Nat.le_trans (ih _ _ _ hr) (procNames_args_le _ _ _ _ _ _ _ _ _ hn)

/-- `procChars` never lengthens the remaining stream. -/
theorem procChars_args_le (isLong : Bool) (argFlag : String) (argVal : Option String) :
    ∀ (chars : List Char) (flags : List Flag) (args : List String)
      (lastShort : Option Char) (flags2 : List Flag) (args2 : List String),
      procChars isLong argFlag argVal flags args lastShort chars = .ok (flags2, args2) →
      args2.length ≤ args.length := by
  intro chars
  induction chars with
  | nil =>
    intro flags args lastShort flags2 args2 h
    simp only [procChars] at h
    cases h
    exact Nat.le_refl _
  | cons ch rest ih =>
    intro flags args lastShort flags2 args2 h
    simp only [procChars] at h
    cases hf : procFlags isLong argFlag argVal ch ⟨args, false, false, lastShort⟩ flags with
    | error e =>
      simp only [hf] at h
      exact Except.noConfusion h
    | ok v =>
      obtain ⟨flagsm, st⟩ := v
      simp only [hf] at h
      by_cases h1 : st.foundLong = true
      · rw [if_pos h1] at h
        cases h
        exact procFlags_args_le _ _ _ _ _ _ _ _ hf
      · rw [if_neg h1] at h
        by_cases h2 : isLong = true
        · rw [if_pos h2] at h
          exact Except.noConfusion h
        · rw [if_neg h2] at h
          by_cases h3 : (!st.foundShort) = true
          · rw [if_pos h3] at h
            exact Except.noConfusion h
          · rw [if_neg h3] at h
            exact Nat.le_trans (ih _ _ _ _ _ h) (procFlags_args_le _ _ _ _ _ _ _ _ hf)

/-- `parse_arg` never lengthens the remaining stream. -/
theorem parse_arg_args_le (arg : String) (args : List String) (flags : List Flag)
    (b : Bool) (args2 : List String) (flags2 : List Flag)
    (h : parse_arg arg args flags = .ok (b, args2, flags2)) :
    args2.length ≤ args.length := by
  simp only [parse_arg] at h
  repeat' split at h
  all_goals
    first
    | (cases h <;> exact Nat.le_refl _)
    | exact Except.noConfusion h
    | (rename_i hpc
       cases h <;> exact procChars_args_le _ _ _ _ _ _ _ _ _ hpc)

/-- The driver loop of `parse_flags` (`src/flags.rs` lines 356-372): `--`
switches `ignore_rest` on and is skipped, `-` (or any token while
`ignore_rest` is on) is appended to the positional arguments, and any other
token is offered to `parse_arg`. -/
def parse_flags_loop (args : List String) (flags : List Flag) (acc : List String)
    (ignoreRest : Bool) : Except FlagError (List String × List Flag) :=
  match args with
  | [] => .ok (acc, flags)
  | arg :: rest =>
    if arg = "--" then parse_flags_loop rest flags acc true
    else if ignoreRest ∨ arg = "-" then
      parse_flags_loop rest flags (acc ++ [arg]) ignoreRest
    else
      match hp : parse_arg arg rest flags with
      | .error e => .error e
      | .ok (true, rest2, flags2) => parse_flags_loop rest2 flags2 acc ignoreRest
      | .ok (false, rest2, flags2) =>
        parse_flags_loop rest2 flags2 (acc ++ [arg]) ignoreRest
termination_by args.length
decreasing_by
  · simp only [List.length_cons]
    omega
  · simp only [List.length_cons]
    omega
  · have := parse_arg_args_le _ _ _ _ _ _ hp
    simp only [List.length_cons]
    omega
  · have := parse_arg_args_le _ _ _ _ _ _ hp
    simp only [List.length_cons]
    omega

/-- `parse_flags` from `src/flags.rs` (lines 348-373), with the release-mode
semantics (the debug-only `check_flags` pass is modelled separately).
Returns the positional arguments and the updated declaration table. -/
def parse_flags (args : List String) (flags : List Flag) :
    Except FlagError (List String × List Flag) :=
  parse_flags_loop args flags [] false

/-- `parse_flags_until_subcommand` from `src/flags.rs` (lines 418-434).
Returns the first positional token (or `""` when the stream runs out), the
tokens left in the iterator after it, and the updated declaration table. -/
def parse_flags_until_subcommand (args : List String) (flags : List Flag) :
    Except FlagError (String × List String × List Flag) :=
  match args with
  | [] => .ok ("", [], flags)
  | arg :: rest =>
    if arg = "-" ∨ arg = "--" then .ok (arg, rest, flags)
    else
      match hp : parse_arg arg rest flags with
      | .error e => .error e
      | .ok (true, rest2, flags2) => parse_flags_until_subcommand rest2 flags2
      | .ok (false, rest2, flags2) => .ok (arg, rest2, flags2)
termination_by args.length
decreasing_by
  have := parse_arg_args_le _ _ _ _ _ _ hp
  simp only [List.length_cons]
  omega

/-- The set of characters Rust `char::is_whitespace` accepts (the Unicode
White_Space property). -/
def rustIsWhitespace (c : Char) : Bool :=
  (0x9 ≤ c.toNat && c.toNat ≤ 0xD) || c.toNat == 0x20 || c.toNat == 0x85 ||
  c.toNat == 0xA0 || c.toNat == 0x1680 ||
  (0x2000 ≤ c.toNat && c.toNat ≤ 0x200A) ||
  c.toNat == 0x2028 || c.toNat == 0x2029 || c.toNat == 0x202F ||
  c.toNat == 0x205F || c.toNat == 0x3000

/-- Rust `flag.contains(char::is_whitespace)`. -/
def containsWhitespace (s : String) : Bool :=
  s.data.any rustIsWhitespace

/-- Rust `flag.starts_with('-')`. -/
def startsDash (s : String) : Bool :=
  s.data.head? == some '-'

/-- Rust `flag.starts_with("--")`. -/
def startsDashDash (s : String) : Bool :=
  s.data.head? == some '-' && s.data.tail.head? == some '-' 

/-- One alias passes every assertion of `check_flags` (`src/flags.rs` lines
156-174): no whitespace, byte length at least 2, and a dash test that depends
on the byte length. -/
def flag_ok (flag : String) : Bool :=
  !containsWhitespace flag &&
  decide (2 ≤ flag.utf8ByteSize) &&
  (if 2 < flag.utf8ByteSize then startsDashDash flag else startsDash flag)

/-- `check_flags` from `src/flags.rs` (lines 144-176), as the predicate
"no assertion fires": `true` means the debug validation pass lets the table
through, `false` means the process aborts on some alias. -/
def check_flags (flags : List Flag) : Bool :=
  flags.all fun p => p.2.all flag_ok

/-- For a long token the match condition is simply alias equality. -/
theorem nameMatches_long (argFlag : String) (ch : Char) (name : String) :
    nameMatches true argFlag ch name = (argFlag == name) := by
  simp [nameMatches]

/-- Scanning a list of aliases none of which matches changes nothing. -/
theorem procNames_nomatch (isLong : Bool) (argFlag : String) (argVal : Option String)
    (ch : Char) (kind : FlagType) (st : ScanState) (names : List String)
    (h : ∀ n ∈ names, nameMatches isLong argFlag ch n = false) :
    procNames isLong argFlag argVal ch kind st names = .ok (kind, st) := by
  induction names with
  | nil => simp [procNames]
  | cons name rest ih =>
    have hn : nameMatches isLong argFlag ch name = false := h name (by simp)
    simp only [procNames, hn, Bool.false_eq_true, if_false]
    exact ih fun n hmem => h n (by simp [hmem])

/-- Scanning a table none of whose aliases matches changes nothing. -/
theorem procFlags_nomatch (isLong : Bool) (argFlag : String) (argVal : Option String)
    (ch : Char) (st : ScanState) (flags : List Flag)
    (h : ∀ p ∈ flags, ∀ n ∈ p.2, nameMatches isLong argFlag ch n = false) :
    procFlags isLong argFlag argVal ch st flags = .ok (flags, st) := by
  induction flags generalizing st with
  | nil => simp [procFlags]
  | cons p rest ih =>
    obtain ⟨kind, names⟩ := p
    have h1 : procNames isLong argFlag argVal ch kind st names = .ok (kind, st) :=
      procNames_nomatch _ _ _ _ _ _ _ fun n hmem => h (kind, names) (by simp) n hmem
    simp only [procFlags, h1]
    have h2 := ih st fun q hq n hn => h q (by simp [hq]) n hn
    simp only [h2]

/-- Once a short flag owns a value, any further match in the same token is a
`CannotCombine` error naming that owner (`src/flags.rs` lines 236-241). -/
theorem procNames_lastShort (isLong : Bool) (argFlag : String) (argVal : Option String)
    (ch : Char) (kind : FlagType) (st : ScanState) (names : List String) (c : Char)
    (hls : st.lastShort = some c)
    (hm : names.any (nameMatches isLong argFlag ch) = true) :
    procNames isLong argFlag argVal ch kind st names =
      .error ⟨FlagErrorType.CannotCombine, "-".push c⟩ := by
  induction names with
  | nil => simp at hm
  | cons name rest ih =>
    by_cases hn : nameMatches isLong argFlag ch name = true
    · simp only [procNames, hn, if_true, hls]
    · have hm2 : rest.any (nameMatches isLong argFlag ch) = true := by
        simp only [List.any_cons, hn, Bool.false_or] at hm
        exact hm
      simp only [procNames, hn, Bool.false_eq_true, if_false]
      exact ih hm2

/-- Table version of `procNames_lastShort`: if any declaration matches while a
short flag already owns a value, the scan errors with `CannotCombine`. -/
theorem procFlags_lastShort (isLong : Bool) (argFlag : String) (argVal : Option String)
    (ch : Char) (st : ScanState) (flags : List Flag) (c : Char)
    (hls : st.lastShort = some c)
    (hm : (flags.any fun p => p.2.any (nameMatches isLong argFlag ch)) = true) :
    procFlags isLong argFlag argVal ch st flags =
      .error ⟨FlagErrorType.CannotCombine, "-".push c⟩ := by
  induction flags generalizing st with
  | nil => simp at hm
  | cons p rest ih =>
    obtain ⟨kind, names⟩ := p
    by_cases hp : names.any (nameMatches isLong argFlag ch) = true
    · have h1 := procNames_lastShort isLong argFlag argVal ch kind st names c hls hp
      simp only [procFlags, h1]
    · have hall : ∀ n ∈ names, nameMatches isLong argFlag ch n = false := by
        intro n hn
        by_contra hc
        have : nameMatches isLong argFlag ch n = true := by
          cases hx : nameMatches isLong argFlag ch n
          · exact absurd hx hc
          · rfl
        exact hp (List.any_eq_true.mpr ⟨n, hn, this⟩)
      have h1 := procNames_nomatch isLong argFlag argVal ch kind st names hall
      have hm2 : (rest.any fun p => p.2.any (nameMatches isLong argFlag ch)) = true := by
        simp only [List.any_cons, hp, Bool.false_or] at hm
        exact hm
      simp only [procFlags, h1, ih _ hls hm2]

/-- A matched `BoolFlag` with an inline value is an `ExtraValueProvided` error
(`src/flags.rs` lines 244-256). -/
theorem procNames_bool_someval (isLong : Bool) (argFlag : String) (argVal : Option String)
    (ch : Char) (b : Bool) (st : ScanState) (names : List String)
    (hv : argVal.isSome = true) (hls : st.lastShort = none)
    (hm : names.any (nameMatches isLong argFlag ch) = true) :
    procNames isLong argFlag argVal ch (.BoolFlag b) st names =
      .error ⟨FlagErrorType.ExtraValueProvided,
              if !isLong then "-".push ch else argFlag⟩ := by
  induction names with
  | nil => simp at hm
  | cons name rest ih =>
    by_cases hn : nameMatches isLong argFlag ch name = true
    · simp only [procNames, hn, if_true, hls, hv]
    · have hm2 : rest.any (nameMatches isLong argFlag ch) = true := by
        simp only [List.any_cons, hn, Bool.false_or] at hm
        exact hm
      simp only [procNames, hn, Bool.false_eq_true, if_false]
      exact ih hm2

/-- If the declarations before a `BoolFlag` declaration never match and the
`BoolFlag` declaration does, an inline value makes the whole scan fail with
`ExtraValueProvided`. -/
theorem procFlags_bool_first (isLong : Bool) (argFlag : String) (argVal : Option String)
    (ch : Char) (b : Bool) (st : ScanState) (pre post : List Flag) (names : List String)
    (hv : argVal.isSome = true) (hls : st.lastShort = none)
    (hpre : ∀ p ∈ pre, ∀ n ∈ p.2, nameMatches isLong argFlag ch n = false)
    (hm : names.any (nameMatches isLong argFlag ch) = true) :
    procFlags isLong argFlag argVal ch st (pre ++ (.BoolFlag b, names) :: post) =
      .error ⟨FlagErrorType.ExtraValueProvided,
              if !isLong then "-".push ch else argFlag⟩ := by
  induction pre generalizing st with
  | nil =>
    have h1 := procNames_bool_someval isLong argFlag argVal ch b st names hv hls hm
    simp only [List.nil_append, procFlags, h1]
  | cons p rest ih =>
    obtain ⟨kind, nm⟩ := p
    have h1 : procNames isLong argFlag argVal ch kind st nm = .ok (kind, st) :=
      procNames_nomatch _ _ _ _ _ _ _ fun n hn => hpre (kind, nm) (by simp) n hn
    have h2 := ih st hls fun q hq n hn => hpre q (List.mem_cons_of_mem _ hq) n hn
    simp only [List.cons_append, procFlags, h1, List.append_eq, h2]

/-- A list without `'='` splits into itself and no value. -/
theorem splitEq_not_mem (l : List Char) (h : '=' ∉ l) : splitEq l = (l, none) := by
  induction l with
  | nil => simp [splitEq]
  | cons c rest ih =>
    have hc : ¬c = '=' := fun hc => h (by simp [hc])
    have hr : '=' ∉ rest := fun hr => h (by simp [hr])
    simp [splitEq, hc, ih hr]

/-- When `parse_arg` classifies a token as a positional it consumes nothing
and touches no declaration (`src/flags.rs` lines 196-199). -/
theorem parse_arg_false_inv (arg : String) (args : List String) (flags : List Flag)
    (args2 : List String) (flags2 : List Flag)
    (h : parse_arg arg args flags = .ok (false, args2, flags2)) :
    args2 = args ∧ flags2 = flags := by
  simp only [parse_arg] at h
  repeat' split at h
  all_goals
    first
    | (cases h <;> exact ⟨rfl, rfl⟩)
    | exact Except.noConfusion h
    | simp at h

/-- `procFlags` keeps every alias list and the declaration order intact. -/
theorem procFlags_names (isLong : Bool) (argFlag : String) (argVal : Option String)
    (ch : Char) :
    ∀ (flags : List Flag) (st : ScanState) (flags2 : List Flag) (st2 : ScanState),
      procFlags isLong argFlag argVal ch st flags = .ok (flags2, st2) →
      flags2.map Prod.snd = flags.map Prod.snd := by
  intro flags
  induction flags with
  | nil =>
    intro st flags2 st2 h
    simp only [procFlags] at h
    cases h
    rfl
  | cons p rest ih =>
    intro st flags2 st2 h
    obtain ⟨kind, names⟩ := p
    simp only [procFlags] at h
    cases hn : procNames isLong argFlag argVal ch kind st names with
    | error e =>
      simp only [hn] at h
      exact Except.noConfusion h
    | ok v =>
      obtain ⟨kindm, stm⟩ := v
      simp only [hn] at h
      cases hr : procFlags isLong argFlag argVal ch stm rest with
      | error e =>
        simp only [hr] at h
        exact Except.noConfusion h
      | ok w =>
        obtain ⟨rest2, st3⟩ := w
        simp only [hr] at h
        cases h
        simp [ih _ _ _ hr]

/-- `procChars` keeps every alias list and the declaration order intact. -/
theorem procChars_names (isLong : Bool) (argFlag : String) (argVal : Option String) :
    ∀ (chars : List Char) (flags : List Flag) (args : List String)
      (lastShort : Option Char) (flags2 : List Flag) (args2 : List String),
      procChars isLong argFlag argVal flags args lastShort chars = .ok (flags2, args2) →
      flags2.map Prod.snd = flags.map Prod.snd := by
  intro chars
  induction chars with
  | nil =>
    intro flags args lastShort flags2 args2 h
    simp only [procChars] at h
    cases h
    rfl
  | cons ch rest ih =>
    intro flags args lastShort flags2 args2 h
    simp only [procChars] at h
    cases hf : procFlags isLong argFlag argVal ch ⟨args, false, false, lastShort⟩ flags with
    | error e =>
      simp only [hf] at h
      exact Except.noConfusion h
    | ok v =>
      obtain ⟨flagsm, st⟩ := v
      simp only [hf] at h
      by_cases h1 : st.foundLong = true
      · rw [if_pos h1] at h
        cases h
        exact procFlags_names _ _ _ _ _ _ _ _ hf
      · rw [if_neg h1] at h
        by_cases h2 : isLong = true
        · rw [if_pos h2] at h
          exact Except.noConfusion h
        · rw [if_neg h2] at h
          by_cases h3 : (!st.foundShort) = true
          · rw [if_pos h3] at h
            exact Except.noConfusion h
          · rw [if_neg h3] at h
            exact Eq.trans (ih _ _ _ _ _ h) (procFlags_names _ _ _ _ _ _ _ _ hf)

/-- `parse_arg` keeps every alias list and the declaration order intact. -/
theorem parse_arg_names (arg : String) (args : List String) (flags : List Flag)
    (b : Bool) (args2 : List String) (flags2 : List Flag)
    (h : parse_arg arg args flags = .ok (b, args2, flags2)) :
    flags2.map Prod.snd = flags.map Prod.snd := by
  simp only [parse_arg] at h
  repeat' split at h
  all_goals
    first
    | (cases h <;> rfl)
    | exact Except.noConfusion h
    | (rename_i hpc
       cases h <;> exact procChars_names _ _ _ _ _ _ _ _ _ hpc)

/-- The driver loop keeps every alias list and the declaration order intact. -/
theorem parse_flags_loop_names :
    ∀ (n : Nat) (args : List String), args.length ≤ n →
      ∀ (flags : List Flag) (acc : List String) (ignoreRest : Bool)
        (res : List String × List Flag),
        parse_flags_loop args flags acc ignoreRest = .ok res →
        res.2.map Prod.snd = flags.map Prod.snd := by
  intro n
  induction n with
  | zero =>
    intro args hlen flags acc ig res h
    have : args = [] := List.eq_nil_of_length_eq_zero (Nat.le_zero.mp hlen)
    subst this
    rw [parse_flags_loop] at h
    cases h
    rfl
  | succ n ih =>
    intro args hlen flags acc ig res h
    cases args with
    | nil =>
      rw [parse_flags_loop] at h
      cases h
      rfl
    | cons arg rest =>
      rw [parse_flags_loop] at h
      have hrest : rest.length ≤ n := by
        simp only [List.length_cons] at hlen
        omega
      by_cases h1 : arg = "--"
      · rw [if_pos h1] at h
        exact ih rest hrest _ _ _ _ h
      · rw [if_neg h1] at h
        by_cases h2 : ig = true ∨ arg = "-"
        · rw [if_pos h2] at h
          exact ih rest hrest _ _ _ _ h
        · rw [if_neg h2] at h
          split at h
          · exact Except.noConfusion h
          · rename_i rest2 flags2 hp
            have hr2 : rest2.length ≤ n := by
              have := parse_arg_args_le _ _ _ _ _ _ hp
              simp only [List.length_cons] at hlen
              omega
            exact Eq.trans (ih rest2 hr2 _ _ _ _ h) (parse_arg_names _ _ _ _ _ _ hp)
          · rename_i rest2 flags2 hp
            have hr2 : rest2.length ≤ n := by
              have := parse_arg_args_le _ _ _ _ _ _ hp
              simp only [List.length_cons] at hlen
              omega
            exact Eq.trans (ih rest2 hr2 _ _ _ _ h) (parse_arg_names _ _ _ _ _ _ hp)

/-- After `--`, the loop skips every further `--` token and appends everything
else, never calling `parse_arg` again (`src/flags.rs` lines 359-370). -/
theorem parse_flags_loop_ignore (flags : List Flag) :
    ∀ (args acc : List String),
      parse_flags_loop args flags acc true =
        .ok (acc ++ args.filter (fun a => a != "--"), flags) := by
  intro args
  induction args with
  | nil =>
    intro acc
    rw [parse_flags_loop]
    simp
  | cons arg rest ih =>
    intro acc
    rw [parse_flags_loop]
    by_cases h1 : arg = "--"
    · rw [if_pos h1, ih acc]
      simp [h1]
    · rw [if_neg h1, if_pos (Or.inl rfl), ih (acc ++ [arg])]
      simp [h1]

/-- A token that does not begin with a dash is classified as positional and
nothing is consumed or written (`src/flags.rs` lines 196-199). -/
theorem parse_arg_nondash (arg : String) (args : List String) (flags : List Flag)
    (h : startsDash arg = false) :
    parse_arg arg args flags = .ok (false, args, flags) := by
  simp only [parse_arg]
  cases hd : arg.data with
  | nil => simp [splitEq, hd]
  | cons c l =>
    simp only [startsDash, hd] at h
    have hc : ¬c = '-' := by
      intro hc
      subst hc
      simp at h
    by_cases he : c = '='
    · simp [splitEq, hd, he]
    · simp only [splitEq, hd, he, if_neg he]
      simp [hc]

/-- When no token of the input begins with a dash the loop appends all of
them, in order, and never touches the declaration table. -/
theorem parse_flags_loop_nondash (flags : List Flag) :
    ∀ (args : List String), (∀ a ∈ args, startsDash a = false) →
      ∀ (acc : List String),
        parse_flags_loop args flags acc false = .ok (acc ++ args, flags) := by
  intro args
  induction args with
  | nil =>
    intro _ acc
    rw [parse_flags_loop]
    simp
  | cons arg rest ih =>
    intro h acc
    have harg : startsDash arg = false := h arg (by simp)
    have h1 : ¬arg = "--" := by
      intro he
      subst he
      simp [startsDash] at harg
    have h2 : ¬(false = true ∨ arg = "-") := by
      intro hc
      rcases hc with hc | hc
      · exact Bool.noConfusion hc
      · subst hc
        simp [startsDash] at harg
    rw [parse_flags_loop, if_neg h1, if_neg h2]
    split
    · rename_i e heq
      rw [parse_arg_nondash arg rest flags harg] at heq
      exact Except.noConfusion heq
    · rename_i rest2 flags2 heq
      rw [parse_arg_nondash arg rest flags harg] at heq
      simp at heq
    · rename_i rest2 flags2 heq
      rw [parse_arg_nondash arg rest flags harg] at heq
      obtain ⟨h3, h4⟩ : rest = rest2 ∧ flags = flags2 := by simpa using heq
      subst h3
      subst h4
      rw [ih (fun a ha => h a (by simp [ha])) (acc ++ [arg])]
      simp

/-- Each `'v'` of a short cluster adds exactly 1 to a `RepeatFlag` counter
declared with aliases `-v`/`--verbose`, and consumes nothing from the
stream (`src/flags.rs` lines 277-279). -/
theorem procChars_repeat (argFlag : String) (args : List String) :
    ∀ (n k : Nat),
      procChars false argFlag none [(.RepeatFlag k, ["-v", "--verbose"])] args none
        (List.replicate n 'v') =
      .ok ([(.RepeatFlag (k + n), ["-v", "--verbose"])], args) := by
  intro n
  induction n with
  | zero =>
    intro k
    simp [procChars]
  | succ n ih =>
    intro k
    rw [List.replicate_succ]
    simp +decide [procChars, procFlags, procNames, nameMatches, endsWithChar]
    rw [ih (k + 1)]
    have harith : k + 1 + n = k + (n + 1) := by omega
    rw [harith]

/-- Cons form of `procChars_repeat`, convenient for rewriting. -/
theorem procChars_repeat_cons (argFlag : String) (args : List String) (n k : Nat) :
    procChars false argFlag none [(.RepeatFlag k, ["-v", "--verbose"])] args none
      ('v' :: List.replicate n 'v') =
    .ok ([(.RepeatFlag (k + (n + 1)), ["-v", "--verbose"])], args) := by
  rw [← List.replicate_succ]
  exact procChars_repeat argFlag args (n + 1) k

/-- The two character tests used by the specification's short-alias shape. -/
def dashNonDash (flag : String) : Bool :=
  match flag.data with
  | [c1, c2] => c1 == '-' && c2 != '-'
  | _ => false

/-- Alias invariant violation exactly as the specification words it (spec §3):
length below 2, a long alias not starting with two dashes, a short alias that
is not one dash plus one non-dash character, or any whitespace.  Declared
separately from `flag_ok` (which follows `check_flags` in `src/flags.rs`) so
the two conditions can be compared. -/
def alias_violation_spec (flag : String) : Bool :=
  decide (flag.utf8ByteSize < 2) ||
  (decide (2 < flag.utf8ByteSize) && !startsDashDash flag) ||
  (decide (flag.utf8ByteSize = 2) && !dashNonDash flag) ||
  containsWhitespace flag

/-- What it means for one alias to fail the `check_flags` assertions. -/
theorem flag_ok_false_iff (a : String) :
    flag_ok a = false ↔
      (a.utf8ByteSize < 2 ∨ (2 < a.utf8ByteSize ∧ startsDashDash a = false) ∨
       (a.utf8ByteSize = 2 ∧ startsDash a = false) ∨ containsWhitespace a = true) := by
  by_cases hw : containsWhitespace a = true
  · simp [flag_ok, hw]
  · rw [Bool.not_eq_true] at hw
    by_cases h2 : 2 < a.utf8ByteSize
    · have h3 : 2 ≤ a.utf8ByteSize := Nat.le_of_lt h2
      have hn1 : ¬a.utf8ByteSize < 2 := by omega
      have hn2 : ¬a.utf8ByteSize = 2 := by omega
      simp [flag_ok, hw, h2, h3, hn1, hn2]
    · by_cases h3 : 2 ≤ a.utf8ByteSize
      · have he : a.utf8ByteSize = 2 := by omega
        have hn1 : ¬a.utf8ByteSize < 2 := by omega
        simp [flag_ok, hw, h2, h3, he, hn1]
      · have hl : a.utf8ByteSize < 2 := by omega
        simp [flag_ok, hw, h2, h3, hl]

/-- The `check_flags` pass rejects a table exactly when some alias fails the
per-alias assertions. -/
theorem check_flags_false_iff (flags : List Flag) :
    check_flags flags = false ↔ ∃ p ∈ flags, ∃ a ∈ p.2, flag_ok a = false := by
  rw [Bool.eq_false_iff]
  constructor
  · intro hne
    by_contra hex
    push_neg at hex
    apply hne
    simp only [check_flags, List.all_eq_true]
    intro p hp a ha
    cases hfa : flag_ok a
    · exact absurd hfa (hex p hp a ha)
    · rfl
  · rintro ⟨p, hp, a, ha, hfa⟩ hall
    simp only [check_flags, List.all_eq_true] at hall
    have h2 := hall p hp a ha
    rw [hfa] at h2
    exact Bool.noConfusion h2
/-- The loop on an exhausted stream returns the collected positionals. -/
theorem parse_flags_loop_nil (flags : List Flag) (acc : List String) (ig : Bool) :
    parse_flags_loop [] flags acc ig = .ok (acc, flags) := by
  rw [parse_flags_loop]

/-- The loop consumes a leading `--` and turns `ignore_rest` on. -/
theorem parse_flags_loop_dashdash (rest : List String) (flags : List Flag)
    (acc : List String) (ig : Bool) :
    parse_flags_loop ("--" :: rest) flags acc ig = parse_flags_loop rest flags acc true := by
  rw [parse_flags_loop, if_pos rfl]

/-- The loop hands a flag token to `parse_arg` and continues after it. -/
theorem parse_flags_loop_step_flag (arg : String) (rest args2 : List String)
    (flags flags2 : List Flag) (acc : List String)
    (h1 : ¬arg = "--") (h2 : ¬arg = "-")
    (hp : parse_arg arg rest flags = .ok (true, args2, flags2)) :
    parse_flags_loop (arg :: rest) flags acc false =
      parse_flags_loop args2 flags2 acc false := by
  rw [parse_flags_loop, if_neg h1, if_neg (by simp [h2])]
  split
  · rename_i e heq
    rw [hp] at heq
    exact Except.noConfusion heq
  · rename_i rest2 flags2x heq
    rw [hp] at heq
    obtain ⟨h3, h4⟩ : args2 = rest2 ∧ flags2 = flags2x := by simpa using heq
    rw [h3, h4]
  · rename_i rest2 flags2x heq
    rw [hp] at heq
    simp at heq

/-- The loop appends a positional token and continues. -/
theorem parse_flags_loop_step_pos (arg : String) (rest args2 : List String)
    (flags flags2 : List Flag) (acc : List String)
    (h1 : ¬arg = "--") (h2 : ¬arg = "-")
    (hp : parse_arg arg rest flags = .ok (false, args2, flags2)) :
    parse_flags_loop (arg :: rest) flags acc false =
      parse_flags_loop args2 flags2 (acc ++ [arg]) false := by
  rw [parse_flags_loop, if_neg h1, if_neg (by simp [h2])]
  split
  · rename_i e heq
    rw [hp] at heq
    exact Except.noConfusion heq
  · rename_i rest2 flags2x heq
    rw [hp] at heq
    simp at heq
  · rename_i rest2 flags2x heq
    rw [hp] at heq
    obtain ⟨h3, h4⟩ : args2 = rest2 ∧ flags2 = flags2x := by simpa using heq
    rw [h3, h4]

/-- The subcommand scanner on an exhausted stream returns the empty-string
sentinel without touching anything. -/
theorem until_subcommand_nil (flags : List Flag) :
    parse_flags_until_subcommand [] flags = .ok ("", [], flags) := by
  rw [parse_flags_until_subcommand]

/-- The subcommand scanner returns a literal `-` or `--` token at once,
leaving the stream right after it. -/
theorem until_subcommand_literal (arg : String) (rest : List String) (flags : List Flag)
    (h : arg = "-" ∨ arg = "--") :
    parse_flags_until_subcommand (arg :: rest) flags = .ok (arg, rest, flags) := by
  rw [parse_flags_until_subcommand, if_pos h]

/-- The subcommand scanner hands a flag token to `parse_arg` and keeps
scanning after it. -/
theorem until_subcommand_step_flag (arg : String) (rest args2 : List String)
    (flags flags2 : List Flag)
    (h1 : ¬(arg = "-" ∨ arg = "--"))
    (hp : parse_arg arg rest flags = .ok (true, args2, flags2)) :
    parse_flags_until_subcommand (arg :: rest) flags =
      parse_flags_until_subcommand args2 flags2 := by
  rw [parse_flags_until_subcommand, if_neg h1]
  split
  · rename_i e heq
    rw [hp] at heq
    exact Except.noConfusion heq
  · rename_i rest2 flags2x heq
    rw [hp] at heq
    obtain ⟨h3, h4⟩ : args2 = rest2 ∧ flags2 = flags2x := by simpa using heq
    rw [h3, h4]
  · rename_i rest2 flags2x heq
    rw [hp] at heq
    simp at heq

/-- The subcommand scanner stops at the first positional token, before
appending it anywhere, with the stream positioned right after it. -/
theorem until_subcommand_step_pos (arg : String) (rest args2 : List String)
    (flags flags2 : List Flag)
    (h1 : ¬(arg = "-" ∨ arg = "--"))
    (hp : parse_arg arg rest flags = .ok (false, args2, flags2)) :
    parse_flags_until_subcommand (arg :: rest) flags = .ok (arg, args2, flags2) := by
  rw [parse_flags_until_subcommand, if_neg h1]
  split
  · rename_i e heq
    rw [hp] at heq
    exact Except.noConfusion heq
  · rename_i rest2 flags2x heq
    rw [hp] at heq
    simp at heq
  · rename_i rest2 flags2x heq
    rw [hp] at heq
    obtain ⟨h3, h4⟩ : args2 = rest2 ∧ flags2 = flags2x := by simpa using heq
    rw [h3, h4]

/-- Claim C1: once a short flag of the current cluster has consumed a value
(the parser records it as `last_short_flag_with_value`), processing any
further character of the same token that matches some declaration returns
`CannotCombine` naming the value-owning short flag with its leading dash,
even when the further character is a declared boolean flag; concretely, with
`-s` declared as a string flag and `-a` declared as a boolean flag, parsing
`["-sa", "x"]` yields `CannotCombine` naming `-s`. -/
theorem C1_value_owner_blocks_cluster :
    (∀ (argFlag : String) (argVal : Option String) (args : List String)
       (flags : List Flag) (c ch : Char) (rest : List Char),
       (flags.any fun p => p.2.any (nameMatches false argFlag ch)) = true →
       procChars false argFlag argVal flags args (some c) (ch :: rest) =
         .error ⟨FlagErrorType.CannotCombine, "-".push c⟩) ∧
    parse_flags ["-sa", "x"] [(.StringFlag "", ["-s"]), (.BoolFlag false, ["-a"])] =
      .error ⟨FlagErrorType.CannotCombine, "-s"⟩ := by
  constructor
  · intro argFlag argVal args flags c ch rest hm
    have h1 := procFlags_lastShort false argFlag argVal ch
      ⟨args, false, false, some c⟩ flags c rfl hm
    simp only [procChars, h1]
  · simp +decide [parse_flags, parse_flags_loop, parse_arg, procChars, procFlags,
      procNames, nameMatches, endsWithChar, splitEq]

/-- Claim C2, counterexample: after the first `--`, a second literal `--` is
not appended to the positional result; the loop consumes it again, so the
claimed output `["--"]` is not produced. -/
theorem C2_counterexample :
    parse_flags ["--", "--"] [] = .ok ([], []) ∧ (["--"] : List String) ≠ [] := by
  constructor
  · simp [parse_flags, parse_flags_loop]
  · simp

/-- Claim C2 as amended: once the literal `--` has been seen, every
subsequent token except further literal `--` tokens (which the loop consumes
again, re-triggering the marker branch) is appended unconditionally; for
every `rest`, `parse_flags` on `["--"] ++ rest` returns `rest` with all
literal `--` tokens removed, the first `--` itself never appearing in the
output and the declaration table untouched. -/
theorem C2_double_dash_rest_positional :
    (∀ (rest : List String) (flags : List Flag),
       parse_flags ("--" :: rest) flags =
         .ok (rest.filter (fun a => a != "--"), flags)) ∧
    parse_flags ["--", "a", "-b", "--", "c"] [] = .ok (["a", "-b", "c"], []) := by
  constructor
  · intro rest flags
    show parse_flags_loop ("--" :: rest) flags [] false = _
    rw [parse_flags_loop_dashdash, parse_flags_loop_ignore]
    simp
  · simp [parse_flags, parse_flags_loop]

/-- Claim C3, counterexample: with two separate boolean declarations sharing
the alias `-a`, parsing `["-a"]` updates both destinations, not only the
first — the claimed result, in which the second declaration is left
untouched, is not produced. -/
theorem C3_counterexample :
    parse_flags ["-a"] [(.BoolFlag false, ["-a"]), (.BoolFlag false, ["-a"])] =
      .ok ([], [(.BoolFlag true, ["-a"]), (.BoolFlag true, ["-a"])]) ∧
    parse_flags ["-a"] [(.BoolFlag false, ["-a"]), (.BoolFlag false, ["-a"])] ≠
      .ok ([], [(.BoolFlag true, ["-a"]), (.BoolFlag false, ["-a"])]) := by
  have h : parse_flags ["-a"] [(.BoolFlag false, ["-a"]), (.BoolFlag false, ["-a"])] =
      .ok ([], [(.BoolFlag true, ["-a"]), (.BoolFlag true, ["-a"])]) := by
    simp +decide [parse_flags, parse_flags_loop, parse_arg, procChars, procFlags,
      procNames, nameMatches, endsWithChar, splitEq]
  refine ⟨h, ?_⟩
  rw [h]
  simp

/-- Claim C3 as amended: resolving a token whose alias is shared by several
declarations dispatches to every matching declaration, in declaration
(insertion) order — not only the first — and the declaration order and alias
lists are preserved by parsing, never resorted; concretely two boolean
declarations sharing `-a` are both set by `["-a"]`. -/
theorem C3_every_match_updates_in_order :
    (∀ (args : List String) (flags : List Flag) (res : List String × List Flag),
       parse_flags args flags = .ok res → res.2.map Prod.snd = flags.map Prod.snd) ∧
    parse_flags ["-a"] [(.BoolFlag false, ["-a"]), (.BoolFlag false, ["-a"])] =
      .ok ([], [(.BoolFlag true, ["-a"]), (.BoolFlag true, ["-a"])]) := by
  constructor
  · intro args flags res h
    exact parse_flags_loop_names args.length args (Nat.le_refl _) flags [] false res h
  · simp +decide [parse_flags, parse_flags_loop, parse_arg, procChars, procFlags,
      procNames, nameMatches, endsWithChar, splitEq]

/-- Claim C4: the subcommand scanner returns the first positional token
(including the literals `-` and `--`) without appending it to any list,
leaving the stream positioned exactly after that token (a positional
classification consumes nothing); an exhausted stream yields the
empty-string sentinel.  Concretely, on `["-v", "dump", "-d", "x"]` with a
`-v` boolean declaration it returns `"dump"` with `-v` set, and a subsequent
`parse_flags` on the remaining stream `["-d", "x"]` with a fresh `-d` table
returns positionals `["x"]` with `-d` set. -/
theorem C4_until_subcommand_split :
    (∀ flags : List Flag, parse_flags_until_subcommand [] flags = .ok ("", [], flags)) ∧
    (∀ (arg : String) (rest : List String) (flags : List Flag),
       arg = "-" ∨ arg = "--" →
       parse_flags_until_subcommand (arg :: rest) flags = .ok (arg, rest, flags)) ∧
    (∀ (arg : String) (rest args2 : List String) (flags flags2 : List Flag),
       ¬(arg = "-" ∨ arg = "--") →
       parse_arg arg rest flags = .ok (false, args2, flags2) →
       args2 = rest ∧ flags2 = flags ∧
         parse_flags_until_subcommand (arg :: rest) flags = .ok (arg, rest, flags2)) ∧
    parse_flags_until_subcommand ["-v", "dump", "-d", "x"] [(.BoolFlag false, ["-v"])] =
      .ok ("dump", ["-d", "x"], [(.BoolFlag true, ["-v"])]) ∧
    parse_flags ["-d", "x"] [(.BoolFlag false, ["-d"])] =
      .ok (["x"], [(.BoolFlag true, ["-d"])]) := by
  refine ⟨until_subcommand_nil, until_subcommand_literal, ?_, ?_, ?_⟩
  · intro arg rest args2 flags flags2 h1 hp
    obtain ⟨h3, h4⟩ := parse_arg_false_inv _ _ _ _ _ hp
    exact ⟨h3, h4, h3 ▸ until_subcommand_step_pos arg rest args2 flags flags2 h1 hp⟩
  · simp +decide [parse_flags_until_subcommand, parse_arg, procChars, procFlags,
      procNames, nameMatches, endsWithChar, splitEq]
  · simp +decide [parse_flags, parse_flags_loop, parse_arg, procChars, procFlags,
      procNames, nameMatches, endsWithChar, splitEq]

/-- Claim C5: for a `RepeatFlag` declaration aliased `-v`/`--verbose`, each
occurrence of `v` in a short cluster adds exactly 1 to the counter (so a
cluster of n+1 `v` characters adds n+1, and `-vvvv` adds 4) and consumes no
value from the stream, while one occurrence of the long alias `--verbose`
adds exactly 1 regardless of character repetition in that token. -/
theorem C5_repeat_count :
    (∀ (n k : Nat),
       parse_flags [String.mk ('-' :: List.replicate (n + 1) 'v'), "z"]
         [(.RepeatFlag k, ["-v", "--verbose"])] =
         .ok (["z"], [(.RepeatFlag (k + (n + 1)), ["-v", "--verbose"])])) ∧
    (∀ k : Nat, parse_flags ["--verbose", "z"] [(.RepeatFlag k, ["-v", "--verbose"])] =
       .ok (["z"], [(.RepeatFlag (k + 1), ["-v", "--verbose"])])) ∧
    parse_flags ["-vvvv"] [(.RepeatFlag 0, ["-v", "--verbose"])] =
      .ok ([], [(.RepeatFlag 4, ["-v", "--verbose"])]) := by
  refine ⟨?_, ?_, ?_⟩
  · intro n k
    have hmem : ('=' : Char) ∉ '-' :: List.replicate (n + 1) 'v' := by
      intro hc
      rcases List.mem_cons.mp hc with hc | hc
      · exact absurd hc (by decide)
      · exact absurd (List.eq_of_mem_replicate hc) (by decide)
    have hsp : splitEq (String.mk ('-' :: List.replicate (n + 1) 'v')).data =
        ('-' :: List.replicate (n + 1) 'v', none) :=
      splitEq_not_mem _ hmem
    have hpa : parse_arg (String.mk ('-' :: List.replicate (n + 1) 'v')) ["z"]
        [(.RepeatFlag k, ["-v", "--verbose"])] =
        .ok (true, ["z"], [(.RepeatFlag (k + (n + 1)), ["-v", "--verbose"])]) := by
      simp only [parse_arg, hsp]
      rw [List.replicate_succ]
      simp +decide [procChars_repeat_cons]
    have hne1 : ¬String.mk ('-' :: List.replicate (n + 1) 'v') = "--" := by
      intro he
      have h2 := congrArg String.data he
      rw [List.replicate_succ] at h2
      simp at h2
    have hne2 : ¬String.mk ('-' :: List.replicate (n + 1) 'v') = "-" := by
      intro he
      have h2 := congrArg String.data he
      rw [List.replicate_succ] at h2
      simp at h2
    show parse_flags_loop _ _ [] false = _
    rw [parse_flags_loop_step_flag _ _ _ _ _ _ hne1 hne2 hpa]
    simp +decide [parse_flags_loop, parse_arg, splitEq]
  · intro k
    simp +decide [parse_flags, parse_flags_loop, parse_arg, procChars, procFlags,
      procNames, nameMatches, endsWithChar, splitEq]
  · simp +decide [parse_flags, parse_flags_loop, parse_arg, procChars, procFlags,
      procNames, nameMatches, endsWithChar, splitEq]

/-- Claim C6, counterexample: for a long token carrying an inline value,
the `UnknownFlag` error names only the flag part before the `=`, not the
whole token (`["--nope=v"]` errors with flag `"--nope"`), and a token whose
flag part is exactly `--` is consumed without any error at all. -/
theorem C6_counterexample :
    parse_flags ["--nope=v"] [] = .error ⟨FlagErrorType.Unknown, "--nope"⟩ ∧
    ("--nope" : String) ≠ "--nope=v" ∧
    parse_flags ["--=v"] [] = .ok ([], []) := by
  refine ⟨?_, by decide, ?_⟩
  · simp +decide [parse_flags, parse_flags_loop, parse_arg, procChars, procFlags,
      procNames, nameMatches, endsWithChar, splitEq]
  · simp +decide [parse_flags, parse_flags_loop, parse_arg, procChars, procFlags,
      procNames, nameMatches, endsWithChar, splitEq]

/-- Claim C6 as amended: a long-flag token whose flag part (the portion
before the first `=`, the whole token when it has no `=`) extends past the
two dashes and matches no declared alias yields `UnknownFlag` naming that
flag part; a short-cluster character matching no declared short alias yields
`UnknownFlag` naming `-<char>`; in particular `["--nope"]` against the empty
table yields `UnknownFlag` naming `"--nope"`. -/
theorem C6_unknown_flag_errors :
    (∀ (arg : String) (args : List String) (flags : List Flag) (ch : Char)
       (cs : List Char),
       (splitEq arg.data).1 = '-' :: '-' :: ch :: cs →
       (∀ p ∈ flags, ∀ n ∈ p.2, (String.mk ('-' :: '-' :: ch :: cs) == n) = false) →
       parse_arg arg args flags =
         .error ⟨FlagErrorType.Unknown, String.mk ('-' :: '-' :: ch :: cs)⟩) ∧
    (∀ (argFlag : String) (argVal : Option String) (args : List String)
       (flags : List Flag) (lastShort : Option Char) (ch : Char) (rest : List Char),
       (∀ p ∈ flags, ∀ n ∈ p.2, nameMatches false argFlag ch n = false) →
       procChars false argFlag argVal flags args lastShort (ch :: rest) =
         .error ⟨FlagErrorType.Unknown, "-".push ch⟩) ∧
    parse_flags ["--nope"] [] = .error ⟨FlagErrorType.Unknown, "--nope"⟩ := by
  refine ⟨?_, ?_, ?_⟩
  · intro arg args flags ch cs hsp hno
    have hno2 : ∀ p ∈ flags, ∀ n ∈ p.2,
        nameMatches true (String.mk ('-' :: '-' :: ch :: cs)) ch n = false := by
      intro p hp n hn
      rw [nameMatches_long]
      exact hno p hp n hn
    have hpf := procFlags_nomatch true (String.mk ('-' :: '-' :: ch :: cs))
      ((splitEq arg.data).2.map String.mk) ch ⟨args, false, false, none⟩ flags hno2
    simp +decide [parse_arg, hsp, procChars, hpf]
  · intro argFlag argVal args flags lastShort ch rest hno
    have hpf := procFlags_nomatch false argFlag argVal ch
      ⟨args, false, false, lastShort⟩ flags hno
    simp +decide [procChars, hpf]
  · simp +decide [parse_flags, parse_flags_loop, parse_arg, procChars, procFlags,
      procNames, nameMatches, endsWithChar, splitEq]

/-- Claim C7: a token that matches a boolean declaration (the first
declaration matching it) and carries an inline `=value` is rejected with
`ExtraValueProvided` — the destination is not set and the value is not
ignored; in long form the error names the flag part, in a short cluster it
names `-<char>`; concretely `["--help=x"]` with a boolean `--help` and
`["-h=x"]` with a boolean `-h` both error. -/
theorem C7_bool_inline_value_rejected :
    (∀ (arg : String) (args : List String) (pre post : List Flag) (b : Bool)
       (names : List String) (ch : Char) (cs v : List Char),
       (splitEq arg.data).1 = '-' :: '-' :: ch :: cs →
       (splitEq arg.data).2 = some v →
       (∀ p ∈ pre, ∀ n ∈ p.2, (String.mk ('-' :: '-' :: ch :: cs) == n) = false) →
       (names.any fun n => String.mk ('-' :: '-' :: ch :: cs) == n) = true →
       parse_arg arg args (pre ++ (.BoolFlag b, names) :: post) =
         .error ⟨FlagErrorType.ExtraValueProvided, String.mk ('-' :: '-' :: ch :: cs)⟩) ∧
    (∀ (argFlag v : String) (args : List String) (pre post : List Flag) (b : Bool)
       (names : List String) (ch : Char) (rest : List Char),
       (∀ p ∈ pre, ∀ n ∈ p.2, nameMatches false argFlag ch n = false) →
       names.any (nameMatches false argFlag ch) = true →
       procChars false argFlag (some v) (pre ++ (.BoolFlag b, names) :: post) args
           none (ch :: rest) =
         .error ⟨FlagErrorType.ExtraValueProvided, "-".push ch⟩) ∧
    parse_flags ["--help=x"] [(.BoolFlag false, ["--help"])] =
      .error ⟨FlagErrorType.ExtraValueProvided, "--help"⟩ ∧
    parse_flags ["-h=x"] [(.BoolFlag false, ["-h"])] =
      .error ⟨FlagErrorType.ExtraValueProvided, "-h"⟩ := by
  refine ⟨?_, ?_, ?_, ?_⟩
  · intro arg args pre post b names ch cs v hsp hsp2 hpre hm
    have hpre2 : ∀ p ∈ pre, ∀ n ∈ p.2,
        nameMatches true (String.mk ('-' :: '-' :: ch :: cs)) ch n = false := by
      intro p hp n hn
      rw [nameMatches_long]
      exact hpre p hp n hn
    have hm2 : names.any (nameMatches true (String.mk ('-' :: '-' :: ch :: cs)) ch)
        = true := by
      simpa [nameMatches_long] using hm
    have hpf := procFlags_bool_first true (String.mk ('-' :: '-' :: ch :: cs))
      (some (String.mk v)) ch b ⟨args, false, false, none⟩ pre post names
      rfl rfl hpre2 hm2
    simp +decide [parse_arg, hsp, hsp2, procChars, hpf]
  · intro argFlag v args pre post b names ch rest hpre hm
    have hpf := procFlags_bool_first false argFlag (some v) ch b
      ⟨args, false, false, none⟩ pre post names rfl rfl hpre hm
    simp +decide [procChars, hpf]
  · simp +decide [parse_flags, parse_flags_loop, parse_arg, procChars, procFlags,
      procNames, nameMatches, endsWithChar, splitEq]
  · simp +decide [parse_flags, parse_flags_loop, parse_arg, procChars, procFlags,
      procNames, nameMatches, endsWithChar, splitEq]

/-- Claim C8: when no input token starts with a dash, `parse_flags` returns
exactly the input tokens, in order, and the declaration table (every
destination slot) is returned unchanged. -/
theorem C8_no_dash_tokens_frame (args : List String) (flags : List Flag)
    (h : ∀ a ∈ args, startsDash a = false) :
    parse_flags args flags = .ok (args, flags) := by
  show parse_flags_loop args flags [] false = _
  rw [parse_flags_loop_nondash flags args h []]
  simp

/-- Witness for claim C8 at a concrete dash-free input. -/
theorem C8_witness :
    parse_flags ["alpha", "b=c", ""] [(.BoolFlag false, ["-v"])] =
      .ok (["alpha", "b=c", ""], [(.BoolFlag false, ["-v"])]) :=
  C8_no_dash_tokens_frame ["alpha", "b=c", ""] [(.BoolFlag false, ["-v"])] (by decide)

/-- Claim C9, counterexample: the alias `"--"` violates the specification's
short-alias shape (one dash plus one non-dash character), yet `check_flags`
accepts a table declaring it — the validation pass does not abort exactly on
the specified violations. -/
theorem C9_counterexample :
    check_flags [(.BoolFlag false, ["--"])] = true ∧
    alias_violation_spec "--" = true := by
  constructor
  · decide
  · decide

/-- Claim C9 as amended: the debug validation pass aborts on a table exactly
when some alias fails the code's own checks — byte length below 2, or byte
length above 2 without a leading `--`, or byte length exactly 2 without a
leading `-`, or any whitespace character.  (The second character of a
two-byte alias is not constrained, so the alias `"--"` passes.) -/
theorem C9_check_flags_characterization :
    ∀ flags : List Flag,
      check_flags flags = false ↔
        ∃ p ∈ flags, ∃ a ∈ p.2,
          (a.utf8ByteSize < 2 ∨ (2 < a.utf8ByteSize ∧ startsDashDash a = false) ∨
           (a.utf8ByteSize = 2 ∧ startsDash a = false) ∨ containsWhitespace a = true) := by
  intro flags
  rw [check_flags_false_iff]
  constructor
  · rintro ⟨p, hp, a, ha, hfa⟩
    exact ⟨p, hp, a, ha, (flag_ok_false_iff a).mp hfa⟩
  · rintro ⟨p, hp, a, ha, hfa⟩
    exact ⟨p, hp, a, ha, (flag_ok_false_iff a).mpr hfa⟩

/-- Claim C10: a token whose portion before its first `=` is exactly `-` or
exactly `--`, while the token is not the bare literal `-` or `--`, is
consumed as a successfully parsed flag: `parse_arg` answers `Ok true`
without consuming from the stream and without touching any declaration, and
`parse_flags` on an input starting with such a token behaves exactly as on
the input without it — no positional, no mutation, no error. -/
theorem C10_dash_eq_tokens_consumed (token : String) (args : List String)
    (flags : List Flag)
    (h1 : (splitEq token.data).1 = ['-'] ∨ (splitEq token.data).1 = ['-', '-'])
    (h2 : ¬token = "-") (h3 : ¬token = "--") :
    parse_arg token args flags = .ok (true, args, flags) ∧
    parse_flags (token :: args) flags = parse_flags args flags := by
  have hpa : parse_arg token args flags = .ok (true, args, flags) := by
    rcases h1 with h1 | h1
    · simp +decide [parse_arg, h1, procChars]
    · simp +decide [parse_arg, h1, procChars]
  refine ⟨hpa, ?_⟩
  show parse_flags_loop (token :: args) flags [] false = _
  rw [parse_flags_loop_step_flag token args args flags flags [] h3 h2 hpa]
  rfl

/-- Witness for claim C10 at the concrete token `-=v`. -/
theorem C10_witness :
    parse_arg "-=v" ["w"] [(.BoolFlag false, ["-a"])] =
      .ok (true, ["w"], [(.BoolFlag false, ["-a"])]) ∧
    parse_flags ("-=v" :: ["w"]) [(.BoolFlag false, ["-a"])] =
      parse_flags ["w"] [(.BoolFlag false, ["-a"])] :=
  C10_dash_eq_tokens_consumed "-=v" ["w"] [(.BoolFlag false, ["-a"])]
    (Or.inl (by decide)) (by decide) (by decide)

end Toiletcli
